import Mathlib

/-!
Shallow embedding of `LinuxProcessCustomSymbolResolver`
(src/include/LiveProfiler/Utils/Platform/Linux/LinuxProcessCustomSymbolResolver.hpp).

The resolver reads JIT symbol map lines of the form
`<hex start> <hex size> <name with possible spaces>` from `/tmp/perf-$pid.map`,
incrementally (resuming from `lastReadOffset_`), keeps the parsed intervals in a
vector sorted ascending by `fileOffsetEnd`, and answers address lookups with
`std::upper_bound` plus a containment check.

Modelling conventions:
* file contents are `List Char`; an absent file is `none : Option (List Char)`;
* `std::size_t` / `std::uintptr_t` values live in `Nat` with an explicit
  `% 2 ^ 64` at every narrowing cast and at the one addition that can wrap
  (`startAddress + symbolSize`);
* `std::chrono` time points and durations are `Int` ticks;
* the interning allocator (`SingletonAllocator<std::string, SymbolName>`)
  deduplicates by name under a fixed path, so a shared `SymbolName` is modelled
  by the name string itself;
* `std::sort` (unstable, comparator `a.fileOffsetEnd < b.fileOffsetEnd`) is
  modelled by `List.insertionSort` on `fileOffsetEnd ≤`: the properties the
  program relies on (the result is an end-sorted permutation of the input) hold
  of every conforming `std::sort` outcome and of this one;
* `std::upper_bound` on a range partitioned by `address < fileOffsetEnd`
  (guaranteed whenever the table is end-sorted, which holds in every reachable
  state) is specified to return the first element satisfying the predicate;
  it is embedded as `List.find?` of that predicate.
-/

namespace LiveProfiler

/-- Whitespace for the tokenizer: space or horizontal tab. -/
def isWhitespace (c : Char) : Bool := decide (c = ' ' ∨ c = '\t')

/-- Value of one base-16 digit (`0-9`, `a-f`, `A-F`), `none` otherwise. -/
def hexDigitVal? (c : Char) : Option Nat :=
  if 48 ≤ c.toNat ∧ c.toNat ≤ 57 then some (c.toNat - 48)
  else if 97 ≤ c.toNat ∧ c.toNat ≤ 102 then some (c.toNat - 87)
  else if 65 ≤ c.toNat ∧ c.toNat ≤ 70 then some (c.toNat - 55)
  else none

/-- Whether `c` is a base-16 digit. -/
def isHexDigit (c : Char) : Bool := (hexDigitVal? c).isSome

/-- Value of a string of base-16 digits, most significant first. -/
def hexVal (ds : List Char) : Nat :=
  ds.foldl (fun acc c => acc * 16 + (hexDigitVal? c).getD 0) 0

/-- Modelled from the spec: `TypeConvertUtils::strToUnsignedLongLong` is not
under `src/` (only its caller is); §4.3 calls it parsing a base-16 integer.
The caller hands it the tail of the line starting at a token (so the text after
the number is arbitrary); it is modelled `strtoull`-style as reading the longest
leading run of base-16 digits, succeeding iff that run is non-empty. -/
def strToUnsignedLongLong (l : List Char) : Option Nat :=
  match l.takeWhile isHexDigit with
  | [] => none
  | d :: ds => some (hexVal (d :: ds))

/-- Modelled from the spec: `StringUtils::split` is not under `src/`; §2 and
§9 describe it as emitting whitespace-delimited token spans over one line.
`tokenRest0 l` is the suffix of `l` beginning at token 0 (empty if none). -/
def tokenRest0 (l : List Char) : List Char := l.dropWhile isWhitespace

/-- Suffix of the line beginning at token 1 (empty if there is no token 1). -/
def tokenRest1 (l : List Char) : List Char :=
  ((tokenRest0 l).dropWhile (fun c => !isWhitespace c)).dropWhile isWhitespace

/-- Suffix of the line beginning at token 2 (empty if there is no token 2). -/
def tokenRest2 (l : List Char) : List Char :=
  ((tokenRest1 l).dropWhile (fun c => !isWhitespace c)).dropWhile isWhitespace

/-- The address field: token 0 itself (the whitespace-delimited word). -/
def addressField (l : List Char) : List Char :=
  (tokenRest0 l).takeWhile (fun c => !isWhitespace c)

/-- The size field: token 1 itself. -/
def sizeField (l : List Char) : List Char :=
  (tokenRest1 l).takeWhile (fun c => !isWhitespace c)

/-- The name field: the rest of the line from token 2 on, embedded whitespace
included (`functionName.assign(line_, startIndex, line_.size() - startIndex)`). -/
def nameField (l : List Char) : List Char := tokenRest2 l

/-- The value the split callback leaves in `startAddress`: the parse of the
line tail at token 0 (`line_.c_str() + startIndex`), `0` when absent or failed,
narrowed by the `static_cast` chain to `std::size_t`. -/
def startAddressOf (l : List Char) : Nat :=
  ((strToUnsignedLongLong (tokenRest0 l)).getD 0) % (2 ^ 64)

/-- The value the split callback leaves in `symbolSize`: the parse of the line
tail at token 1, `0` when absent or failed, narrowed to `std::size_t`. -/
def symbolSizeOf (l : List Char) : Nat :=
  ((strToUnsignedLongLong (tokenRest1 l)).getD 0) % (2 ^ 64)

/-- The value the split callback leaves in `functionName`. -/
def functionNameOf (l : List Char) : List Char := nameField l

/-- One entry of `symbolNames_` (struct `SymbolNameWithOffset`). -/
structure SymbolNameWithOffset where
  symbolName : String
  fileOffsetStart : Nat
  fileOffsetEnd : Nat
deriving Repr, DecidableEq

/-- Per-line body of the `updateSymbolNames` loop: the parse of one complete
line, `some` interval iff `startAddress != 0 && symbolSize != 0 &&
!functionName.empty()`, with `fileOffsetEnd = startAddress + symbolSize`
wrapping as `std::size_t` addition does. -/
def lineToSymbol (l : List Char) : Option SymbolNameWithOffset :=
  if startAddressOf l ≠ 0 ∧ symbolSizeOf l ≠ 0 ∧ functionNameOf l ≠ [] then
    some ⟨⟨functionNameOf l⟩, startAddressOf l,
          (startAddressOf l + symbolSizeOf l) % (2 ^ 64)⟩
  else none

/-- The `std::getline`/`!file.eof()` loop splits the unread part of the file
into its newline-terminated lines plus the unterminated tail (possibly empty):
`splitTail rest = (complete lines, tail)`. -/
def splitTail : List Char → List (List Char) × List Char
  | [] => ([], [])
  | c :: cs =>
    if c = '\n' then
      ([] :: (splitTail cs).1, (splitTail cs).2)
    else
      match splitTail cs with
      | ([], t) => ([], c :: t)
      | (line :: ls, t) => ((c :: line) :: ls, t)

/-- Concatenation of lines with their terminating newlines. -/
def joinLines : List (List Char) → List Char
  | [] => []
  | l :: ls => l ++ '\n' :: joinLines ls

/-- Bytes consumed by a list of complete lines (each line plus its newline);
the amount `file.tellg()` advances `lastReadOffset_` by. -/
def consumedBytes (lines : List (List Char)) : Nat :=
  (lines.map fun l => l.length + 1).sum

/-- Comparator of the final `std::sort`: ascending `fileOffsetEnd`. -/
def endLe (a b : SymbolNameWithOffset) : Prop :=
  a.fileOffsetEnd ≤ b.fileOffsetEnd

instance : DecidableRel endLe := fun a b => Nat.decLe _ _

instance : IsTotal SymbolNameWithOffset endLe :=
  ⟨fun a b => Nat.le_total a.fileOffsetEnd b.fileOffsetEnd⟩

instance : IsTrans SymbolNameWithOffset endLe :=
  ⟨fun _ _ _ h h' => Nat.le_trans h h'⟩

/-- The table is sorted ascending by `fileOffsetEnd`. -/
def SortedByEnd (l : List SymbolNameWithOffset) : Prop := List.Sorted endLe l

/-- The final `std::sort(symbolNames_.begin(), symbolNames_.end(), ...)`. -/
def sortByEnd (l : List SymbolNameWithOffset) : List SymbolNameWithOffset :=
  List.insertionSort endLe l

/-- The resolver's mutable fields (`ResolverState` of the spec). -/
@[ext]
structure ResolverState where
  pid : Int
  path : String
  symbolNames : List SymbolNameWithOffset
  symbolNamesUpdated : Int
  symbolNamesUpdateMinInterval : Int
  symbolNamesPathBuffer : String
  line : List Char
  lastReadOffset : Nat
deriving Repr, DecidableEq

/-- Default minimum refresh interval (`DefaultSymbolNamesUpdateMinInterval`). -/
def DefaultSymbolNamesUpdateMinInterval : Int := 100

/-- Path building in `updateSymbolNames`: fixed prefix, decimal pid, fixed
suffix, done once into the reusable buffer. -/
def buildPath (pid : Int) : String := "/tmp/perf-" ++ toString pid ++ ".map"

/-- Member `reset(pid, path, symbolNameAllocator)`; the allocator argument is
modelled away (symbol identity is the interned name, see the header comment). -/
def reset (st : ResolverState) (pid : Int) (path : String) : ResolverState :=
  { st with
    pid := pid
    path := path
    symbolNames := []
    symbolNamesUpdated := 0
    symbolNamesPathBuffer := ""
    line := []
    lastReadOffset := 0 }

/-- Member `freeResources()`: clears the table and unlinks the map file when
the path buffer was ever built. The second component is the filesystem effect:
the path passed to `::unlink`, or `none` when no unlink happens. -/
def freeResources (st : ResolverState) : ResolverState × Option String :=
  ({ st with symbolNames := [] },
   if st.symbolNamesPathBuffer = "" then none
   else some st.symbolNamesPathBuffer)

/-- The complete lines a refresh with file contents `file` would consume from
state `st` (those the `getline` loop runs its body on). -/
def linesConsumed (st : ResolverState) (file : Option (List Char)) :
    List (List Char) :=
  match file with
  | none => []
  | some content => (splitTail (content.drop st.lastReadOffset)).1

/-- Member `updateSymbolNames()`. `file` is the contents of the map file at
the moment of the `std::ifstream` open (`none` = the file does not exist: the
early `return` leaves everything but the path buffer untouched). Otherwise the
loop consumes exactly the newline-terminated lines after `lastReadOffset_`,
appends their parses, leaves the unterminated tail for the next refresh
(`line_` being the scratch `std::getline` last wrote), and re-sorts by end. -/
def updateSymbolNames (st : ResolverState) (file : Option (List Char)) :
    ResolverState :=
  let pathBuffer :=
    if st.symbolNamesPathBuffer = "" then buildPath st.pid
    else st.symbolNamesPathBuffer
  match file with
  | none => { st with symbolNamesPathBuffer := pathBuffer }
  | some content =>
    let split := splitTail (content.drop st.lastReadOffset)
    { st with
      symbolNamesPathBuffer := pathBuffer
      lastReadOffset := st.lastReadOffset + consumedBytes split.1
      line := split.2
      symbolNames := sortByEnd (st.symbolNames ++ split.1.filterMap lineToSymbol) }

/-- Member `tryResolve(address)`: `std::upper_bound` for the first entry with
`address < fileOffsetEnd` (see header comment on the embedding), then the
`address >= fileOffsetStart` containment check; `nullptr` is `none`. -/
def tryResolve (symbolNames : List SymbolNameWithOffset) (address : Nat) :
    Option String :=
  match symbolNames.find? (fun s => decide (address < s.fileOffsetEnd)) with
  | none => none
  | some s =>
    if s.fileOffsetStart ≤ address then some s.symbolName else none

/-- Outcome of one `resolve` call: the returned pointer, the state after the
call, and whether `updateSymbolNames` ran (the only filesystem access). -/
structure ResolveResult where
  symbolName : Option String
  state : ResolverState
  didRefresh : Bool
deriving Repr, DecidableEq

/-- Member `resolve(address, forceUpdate)`. `now` is the
`high_resolution_clock::now()` sample, `file` the map file contents a refresh
would observe. First try; on a miss, if `forceUpdate || now -
symbolNamesUpdated_ > symbolNamesUpdateMinInterval_`, refresh, record `now`,
and retry once. -/
def resolve (st : ResolverState) (file : Option (List Char)) (address : Nat)
    (forceUpdate : Bool) (now : Int) : ResolveResult :=
  match tryResolve st.symbolNames address with
  | some s => ⟨some s, st, false⟩
  | none =>
    if forceUpdate = true ∨
        now - st.symbolNamesUpdated > st.symbolNamesUpdateMinInterval then
      let st' := updateSymbolNames st file
      ⟨tryResolve st'.symbolNames address,
       { st' with symbolNamesUpdated := now }, true⟩
    else ⟨none, st, false⟩

/-- Two table entries occupy disjoint half-open address ranges. -/
def IntervalsDisjoint (s t : SymbolNameWithOffset) : Prop :=
  s.fileOffsetEnd ≤ t.fileOffsetStart ∨ t.fileOffsetEnd ≤ s.fileOffsetStart

instance : DecidableRel IntervalsDisjoint := fun _ _ => inferInstanceAs (Decidable (_ ∨ _))

/-- A fresh resolver slot as the constructor leaves it, then `reset` for pid 1.
Used as the start state of the concrete evaluations below. -/
def initState : ResolverState :=
  reset ⟨0, "", [], 0, DefaultSymbolNamesUpdateMinInterval, "", [], 0⟩ 1 "perf-map"

/-! Helper lemmas about the tailing reader's line splitting. -/

theorem splitTail_join (l : List Char) :
    joinLines (splitTail l).1 ++ (splitTail l).2 = l := by
  induction l with
  | nil => simp [splitTail, joinLines]
  | cons c cs ih =>
    by_cases hc : c = '\n'
    · subst hc
      simpa [splitTail, joinLines] using ih
    · rcases h : splitTail cs with ⟨ls, t⟩
      cases ls with
      | nil =>
        rw [h] at ih
        simp [joinLines] at ih
        simp [splitTail, hc, h, joinLines, ih]
      | cons l0 ls' =>
        rw [h] at ih
        simp [joinLines] at ih ⊢
        simp [splitTail, hc, h, joinLines, ih]

theorem length_joinLines (ls : List (List Char)) :
    (joinLines ls).length = consumedBytes ls := by
  induction ls with
  | nil => simp [joinLines, consumedBytes]
  | cons l ls ih =>
    simp [joinLines, consumedBytes] at ih ⊢
    omega

theorem splitTail_tail_no_newline (l : List Char) : '\n' ∉ (splitTail l).2 := by
  induction l with
  | nil => simp [splitTail]
  | cons c cs ih =>
    by_cases hc : c = '\n'
    · subst hc; simpa [splitTail] using ih
    · rcases h : splitTail cs with ⟨ls, t⟩
      rw [h] at ih
      cases ls with
      | nil =>
        simp [splitTail, hc, h]
        exact ⟨fun he => hc he.symm, ih⟩
      | cons l0 ls' => simpa [splitTail, hc, h] using ih

theorem splitTail_of_no_newline (l : List Char) (h : '\n' ∉ l) :
    splitTail l = ([], l) := by
  induction l with
  | nil => simp [splitTail]
  | cons c cs ih =>
    simp at h
    have hc : ¬c = '\n' := fun he => h.1 he.symm
    have := ih h.2
    simp [splitTail, hc, this]

theorem splitTail_append_newline (t rest : List Char) (h : '\n' ∉ t) :
    splitTail (t ++ '\n' :: rest) =
      (t :: (splitTail rest).1, (splitTail rest).2) := by
  induction t with
  | nil => simp [splitTail]
  | cons c t' ih =>
    simp at h
    have hc : ¬c = '\n' := fun he => h.1 he.symm
    have := ih h.2
    simp [splitTail, hc, this]

theorem drop_consumedBytes (l : List Char) :
    l.drop (consumedBytes (splitTail l).1) = (splitTail l).2 := by
  rcases h : splitTail l with ⟨ls, t⟩
  have hj : joinLines ls ++ t = l := by
    have := splitTail_join l
    rw [h] at this
    exact this
  simp only [← hj, ← length_joinLines, List.drop_left]

theorem consumedBytes_add_tail_length (l : List Char) :
    consumedBytes (splitTail l).1 + (splitTail l).2.length = l.length := by
  rcases h : splitTail l with ⟨ls, t⟩
  have hj : joinLines ls ++ t = l := by
    have := splitTail_join l
    rw [h] at this
    exact this
  simp only [← hj, List.length_append, length_joinLines]

/-! Helper lemmas about the refresh and the sort. -/

theorem update_some_lastReadOffset (st : ResolverState) (c : List Char) :
    (updateSymbolNames st (some c)).lastReadOffset =
      st.lastReadOffset +
        consumedBytes (splitTail (c.drop st.lastReadOffset)).1 := rfl

theorem lastReadOffset_le_update (st : ResolverState)
    (file : Option (List Char)) :
    st.lastReadOffset ≤ (updateSymbolNames st file).lastReadOffset := by
  cases file with
  | none => simp [updateSymbolNames]
  | some c => simp [updateSymbolNames]

theorem drop_update_some_offset (st : ResolverState) (c : List Char) :
    c.drop (updateSymbolNames st (some c)).lastReadOffset =
      (splitTail (c.drop st.lastReadOffset)).2 := by
  rw [update_some_lastReadOffset, ← List.drop_drop, drop_consumedBytes]

theorem sortByEnd_sorted (l : List SymbolNameWithOffset) :
    SortedByEnd (sortByEnd l) := List.sorted_insertionSort endLe l

theorem sortByEnd_perm (l : List SymbolNameWithOffset) :
    (sortByEnd l).Perm l := List.perm_insertionSort endLe l

theorem sortByEnd_eq_self {l : List SymbolNameWithOffset}
    (h : SortedByEnd l) : sortByEnd l = l := h.insertionSort_eq

theorem update_some_symbolNames (st : ResolverState) (c : List Char) :
    (updateSymbolNames st (some c)).symbolNames =
      sortByEnd (st.symbolNames ++
        (splitTail (c.drop st.lastReadOffset)).1.filterMap lineToSymbol) := rfl

theorem update_some_sorted (st : ResolverState) (c : List Char) :
    SortedByEnd (updateSymbolNames st (some c)).symbolNames :=
  sortByEnd_sorted _

theorem buildPath_ne_empty (pid : Int) : buildPath pid ≠ "" := by
  intro h
  have : (buildPath pid).data = "".data := by rw [h]
  rw [buildPath] at this
  simp [String.data_append] at this

theorem update_pathBuffer_ne_empty (st : ResolverState)
    (file : Option (List Char)) :
    (updateSymbolNames st file).symbolNamesPathBuffer ≠ "" := by
  by_cases h : st.symbolNamesPathBuffer = ""
  · cases file with
    | none => simpa [updateSymbolNames, h] using buildPath_ne_empty st.pid
    | some c => simpa [updateSymbolNames, h] using buildPath_ne_empty st.pid
  · cases file with
    | none => simpa [updateSymbolNames, h] using h
    | some c => simpa [updateSymbolNames, h] using h

/-! Helper lemmas about the lookup. -/

theorem tryResolve_not_covered {L : List SymbolNameWithOffset} {a : Nat}
    (h : ∀ s ∈ L, ¬(s.fileOffsetStart ≤ a ∧ a < s.fileOffsetEnd)) :
    tryResolve L a = none := by
  rw [tryResolve]
  rcases hf : L.find? (fun s => decide (a < s.fileOffsetEnd)) with _ | s
  · simp [hf]
  · have hmem := List.mem_of_find?_eq_some hf
    have hlt : a < s.fileOffsetEnd := by
      have := List.find?_some hf
      simpa using this
    have hns : ¬s.fileOffsetStart ≤ a := fun hle => h s hmem ⟨hle, hlt⟩
    simp [hf, hns]

theorem tryResolve_covered (L : List SymbolNameWithOffset) (a : Nat) :
    SortedByEnd L →
    (∀ s ∈ L, s.fileOffsetStart < s.fileOffsetEnd) →
    L.Pairwise IntervalsDisjoint →
    ∀ t ∈ L, t.fileOffsetStart ≤ a → a < t.fileOffsetEnd →
    tryResolve L a = some t.symbolName := by
  induction L with
  | nil => intro _ _ _ t ht; cases ht
  | cons x xs ih =>
    intro hs hw hd t ht h1 h2
    by_cases hx : a < x.fileOffsetEnd
    · have hxt : t = x := by
        rcases List.mem_cons.mp ht with h' | h'
        · exact h'
        · exfalso
          have hdisj : IntervalsDisjoint x t :=
            (List.pairwise_cons.mp hd).1 t h'
          have hend : x.fileOffsetEnd ≤ t.fileOffsetEnd :=
            (List.sorted_cons.mp hs).1 t h'
          -- x precedes t in end-order; disjointness forces a contradiction
          rcases hdisj with hl | hr
          · exact absurd (lt_of_lt_of_le hx (le_trans hl h1)) (lt_irrefl a)
          · have hxx : x.fileOffsetEnd ≤ x.fileOffsetStart := le_trans hend hr
            exact absurd (lt_of_lt_of_le (hw x (List.mem_cons_self x xs)) hxx)
              (lt_irrefl _)
      subst hxt
      rw [tryResolve, List.find?_cons_of_pos _ (by simpa using hx)]
      simp [h1]
    · have hts : t ∈ xs := by
        rcases List.mem_cons.mp ht with h' | h'
        · exact absurd (h' ▸ h2) hx
        · exact h'
      have heq : tryResolve (x :: xs) a = tryResolve xs a := by
        rw [tryResolve, tryResolve, List.find?_cons_of_neg _ (by simpa using hx)]
      rw [heq]
      exact ih (List.sorted_cons.mp hs).2
        (fun s hmem => hw s (List.mem_cons_of_mem x hmem))
        (List.Pairwise.of_cons hd) t hts h1 h2

/-! Helper lemmas about the tokenizer fields. -/

theorem takeWhile_sub {α : Type} (p q : α → Bool)
    (h : ∀ c, q c = true → p c = true) (l : List α) :
    (l.takeWhile p).takeWhile q = l.takeWhile q := by
  induction l with
  | nil => simp
  | cons c cs ih =>
    by_cases hq : q c = true
    · simp [List.takeWhile_cons, hq, h c hq, ih]
    · by_cases hp : p c = true <;> simp [List.takeWhile_cons, hp, hq]

theorem hexDigit_not_whitespace (c : Char) (h : isHexDigit c = true) :
    (!isWhitespace c) = true := by
  rcases hw : isWhitespace c
  · simp
  · exfalso
    rw [isWhitespace] at hw
    rcases of_decide_eq_true hw with rfl | rfl <;> exact absurd h (by decide)

theorem strToUnsignedLongLong_token (r : List Char) :
    strToUnsignedLongLong (r.takeWhile (fun c => !isWhitespace c)) =
      strToUnsignedLongLong r := by
  rw [strToUnsignedLongLong, strToUnsignedLongLong,
    takeWhile_sub _ _ hexDigit_not_whitespace]

theorem addressField_parse (l : List Char) :
    strToUnsignedLongLong (addressField l) =
      strToUnsignedLongLong (tokenRest0 l) :=
  strToUnsignedLongLong_token (tokenRest0 l)

theorem sizeField_parse (l : List Char) :
    strToUnsignedLongLong (sizeField l) =
      strToUnsignedLongLong (tokenRest1 l) :=
  strToUnsignedLongLong_token (tokenRest1 l)

/-! Helper lemmas unfolding one `resolve` call. -/

theorem resolve_of_hit {st : ResolverState} {file : Option (List Char)}
    {a : Nat} {fu : Bool} {now : Int} {s : String}
    (h : tryResolve st.symbolNames a = some s) :
    resolve st file a fu now = ⟨some s, st, false⟩ := by
  simp [resolve, h]

theorem resolve_of_miss_gate {st : ResolverState} {file : Option (List Char)}
    {a : Nat} {fu : Bool} {now : Int}
    (h : tryResolve st.symbolNames a = none)
    (hg : fu = true ∨
      now - st.symbolNamesUpdated > st.symbolNamesUpdateMinInterval) :
    resolve st file a fu now =
      ⟨tryResolve (updateSymbolNames st file).symbolNames a,
       { updateSymbolNames st file with symbolNamesUpdated := now }, true⟩ := by
  simp [resolve, h, hg]

theorem resolve_of_miss_nogate {st : ResolverState} {file : Option (List Char)}
    {a : Nat} {fu : Bool} {now : Int}
    (h : tryResolve st.symbolNames a = none)
    (hg : ¬(fu = true ∨
      now - st.symbolNamesUpdated > st.symbolNamesUpdateMinInterval)) :
    resolve st file a fu now = ⟨none, st, false⟩ := by
  simp only [resolve, h, if_neg hg]

theorem update_pid (st : ResolverState) (file : Option (List Char)) :
    (updateSymbolNames st file).pid = st.pid := by
  cases file <;> rfl

theorem update_path (st : ResolverState) (file : Option (List Char)) :
    (updateSymbolNames st file).path = st.path := by
  cases file <;> rfl

theorem update_pathBuffer (st : ResolverState) (file : Option (List Char)) :
    (updateSymbolNames st file).symbolNamesPathBuffer =
      if st.symbolNamesPathBuffer = "" then buildPath st.pid
      else st.symbolNamesPathBuffer := by
  cases file <;> rfl

theorem update_some_line (st : ResolverState) (c : List Char) :
    (updateSymbolNames st (some c)).line =
      (splitTail (c.drop st.lastReadOffset)).2 := rfl

theorem update_symbolNamesUpdated (st : ResolverState)
    (file : Option (List Char)) :
    (updateSymbolNames st file).symbolNamesUpdated = st.symbolNamesUpdated := by
  cases file <;> rfl

theorem update_symbolNamesUpdateMinInterval (st : ResolverState)
    (file : Option (List Char)) :
    (updateSymbolNames st file).symbolNamesUpdateMinInterval =
      st.symbolNamesUpdateMinInterval := by
  cases file <;> rfl

/-! Claim C1. -/

/-- Claim C1 counterexample: the claim says `resolve(a, _)` returns not-found
for `a = e` whenever `[s, e)` is in the table. After a refresh that parsed the
two adjacent (non-overlapping) intervals `[0xa, 0x14) ↦ "A"` and
`[0x14, 0x1e) ↦ "B"`, the address `0x14 = 20` — the end of the first
interval — resolves to `"B"`, not to not-found: `upper_bound` lands on the
second interval and its containment check `20 ≥ 20` passes. -/
theorem lookup_semantics_cex :
    (updateSymbolNames initState (some "a a A\n14 a B\n".data)).symbolNames =
      [⟨"A", 10, 20⟩, ⟨"B", 20, 30⟩] ∧
    tryResolve
      (updateSymbolNames initState (some "a a A\n14 a B\n".data)).symbolNames
      20 = some "B" ∧
    (resolve (updateSymbolNames initState (some "a a A\n14 a B\n".data))
      none 20 false 0).symbolName = some "B" := by decide

/-- Claim C1 (amended): against the table left by a refresh, provided the
stored intervals are well-formed (`start < end`) and pairwise disjoint — the
regime in which the sort-by-end ambiguity of spec §4.2 does not arise — the
lookup returns the covering interval's symbol for every `s ≤ a < e`; for every
address covered by no interval (in particular `a = e` when no other interval
contains `e`) the lookup returns not-found. Moreover `resolve` returns a
first-try hit unchanged, and returns not-found on a miss that does not
refresh. -/
theorem lookup_semantics :
    (∀ st (content : List Char) a,
      (∀ s ∈ (updateSymbolNames st (some content)).symbolNames,
        s.fileOffsetStart < s.fileOffsetEnd) →
      ((updateSymbolNames st (some content)).symbolNames).Pairwise
        IntervalsDisjoint →
      (∀ t ∈ (updateSymbolNames st (some content)).symbolNames,
        t.fileOffsetStart ≤ a → a < t.fileOffsetEnd →
        tryResolve (updateSymbolNames st (some content)).symbolNames a =
          some t.symbolName) ∧
      ((∀ s ∈ (updateSymbolNames st (some content)).symbolNames,
          ¬(s.fileOffsetStart ≤ a ∧ a < s.fileOffsetEnd)) →
        tryResolve (updateSymbolNames st (some content)).symbolNames a =
          none)) ∧
    (∀ st file a fu now s, tryResolve st.symbolNames a = some s →
      (resolve st file a fu now).symbolName = some s) ∧
    (∀ st file a fu now, tryResolve st.symbolNames a = none →
      (resolve st file a fu now).didRefresh = false →
      (resolve st file a fu now).symbolName = none) := by
  refine ⟨fun st content a hw hd => ⟨fun t ht h1 h2 => ?_, fun h => ?_⟩,
    fun st file a fu now s h => ?_, fun st file a fu now h hnr => ?_⟩
  · exact tryResolve_covered _ a (update_some_sorted st content) hw hd t ht h1 h2
  · exact tryResolve_not_covered h
  · rw [resolve_of_hit h]
  · by_cases hg : fu = true ∨
        now - st.symbolNamesUpdated > st.symbolNamesUpdateMinInterval
    · rw [resolve_of_miss_gate h hg] at hnr
      cases hnr
    · rw [resolve_of_miss_nogate h hg]

/-- Witness for C1: instantiates `lookup_semantics` on the table refreshed
from `"a a A\n"`, at a covered address (15) and an uncovered one (25). -/
theorem lookup_semantics_witness :
    tryResolve (updateSymbolNames initState (some "a a A\n".data)).symbolNames
      15 = some "A" ∧
    tryResolve (updateSymbolNames initState (some "a a A\n".data)).symbolNames
      25 = none := by
  obtain ⟨h1, h2, h3⟩ := lookup_semantics
  constructor
  · exact (h1 initState "a a A\n".data 15 (by decide) (by decide)).1
      ⟨"A", 10, 20⟩ (by decide) (by decide) (by decide)
  · exact (h1 initState "a a A\n".data 25 (by decide) (by decide)).2 (by decide)

/-! Claim C2. -/

/-- Claim C2 counterexample: the claim says a line is discarded iff its
address field fails to parse, its size field parses to zero, or its name is
empty. Two refuting lines: `"0 5 Foo"` — the address field parses fine (to 0),
the size is 5 ≠ 0 and the name is `"Foo"`, yet the code's `startAddress != 0`
test discards the line; `"a zz Foo"` — the address parses to 10, the size
field fails to parse (it does not parse to zero) and the name is nonempty, yet
`symbolSize` stays 0 and the line is discarded. -/
theorem line_filter_cex :
    (lineToSymbol "0 5 Foo".data = none ∧
     strToUnsignedLongLong (addressField "0 5 Foo".data) = some 0 ∧
     strToUnsignedLongLong (sizeField "0 5 Foo".data) = some 5 ∧
     nameField "0 5 Foo".data = "Foo".data) ∧
    (lineToSymbol "a zz Foo".data = none ∧
     strToUnsignedLongLong (addressField "a zz Foo".data) = some 10 ∧
     strToUnsignedLongLong (sizeField "a zz Foo".data) = none ∧
     nameField "a zz Foo".data = "Foo".data) := by decide

/-- Claim C2 (amended): a line is discarded iff its address field fails to
parse or parses (as a 64-bit `size_t`) to zero, its size field fails to parse
or parses to zero, or its name field is empty; every kept line produces
exactly one interval with `start` the parsed address, `end = (start + size)
mod 2^64`, and the name the remainder of the line including embedded
whitespace; the refresh appends exactly the parses of the consumed lines to
the table (up to the final re-sort's reordering). -/
theorem line_filter :
    (∀ l : List Char,
      (lineToSymbol l = none ↔
        ((strToUnsignedLongLong (addressField l)).getD 0) % (2 ^ 64) = 0 ∨
        ((strToUnsignedLongLong (sizeField l)).getD 0) % (2 ^ 64) = 0 ∨
        nameField l = []) ∧
      (∀ s, lineToSymbol l = some s →
        s = ⟨⟨nameField l⟩,
             ((strToUnsignedLongLong (addressField l)).getD 0) % (2 ^ 64),
             (((strToUnsignedLongLong (addressField l)).getD 0) % (2 ^ 64) +
              ((strToUnsignedLongLong (sizeField l)).getD 0) % (2 ^ 64)) %
               (2 ^ 64)⟩)) ∧
    (∀ st content,
      ((updateSymbolNames st (some content)).symbolNames).Perm
        (st.symbolNames ++
          (linesConsumed st (some content)).filterMap lineToSymbol)) := by
  have ha : ∀ l, startAddressOf l =
      ((strToUnsignedLongLong (addressField l)).getD 0) % (2 ^ 64) := by
    intro l
    rw [startAddressOf, addressField_parse]
  have hz : ∀ l, symbolSizeOf l =
      ((strToUnsignedLongLong (sizeField l)).getD 0) % (2 ^ 64) := by
    intro l
    rw [symbolSizeOf, sizeField_parse]
  refine ⟨fun l => ⟨?_, fun s hs => ?_⟩, fun st content => ?_⟩
  · have key : lineToSymbol l = none ↔
        ¬(startAddressOf l ≠ 0 ∧ symbolSizeOf l ≠ 0 ∧
          functionNameOf l ≠ []) := by
      rw [lineToSymbol]
      split <;> simp_all
    rw [key, ha l, hz l]
    show ¬(_ ∧ _ ∧ nameField l ≠ []) ↔ _
    tauto
  · rw [lineToSymbol] at hs
    split at hs
    · cases hs
      rw [ha, hz]
      rfl
    · cases hs
  · rw [update_some_symbolNames, linesConsumed]
    exact sortByEnd_perm _

/-- Witness for C2: instantiates `line_filter` on the kept line
`"400000 10 instance Foo"` (name with an embedded space) and on the refresh of
a two-line file. -/
theorem line_filter_witness :
    lineToSymbol "400000 10 instance Foo".data =
      some ⟨"instance Foo", 4194304, 4194320⟩ ∧
    ((updateSymbolNames initState (some "a a A\n".data)).symbolNames).Perm
      (initState.symbolNames ++
        (linesConsumed initState (some "a a A\n".data)).filterMap
          lineToSymbol) := by
  constructor
  · rcases hv : lineToSymbol "400000 10 instance Foo".data with _ | s
    · exact absurd ((line_filter.1 "400000 10 instance Foo".data).1.mp hv)
        (by decide)
    · have heq := (line_filter.1 "400000 10 instance Foo".data).2 s hv
      rw [heq]
      decide
  · exact line_filter.2 initState "a a A\n".data

/-! Claim C3. -/

/-- Claim C3 (confirmed): when the unread part of the file ends in a
non-newline-terminated tail line, a refresh consumes exactly the complete
lines before it and leaves `lastReadOffset` at the tail's first byte
(`lastReadOffset + tail.length = content.length`); after the writer appends
the terminating newline, the next refresh consumes exactly that one line —
parsed once, from its own first byte — and advances past it. -/
theorem partial_line_deferral :
    ∀ (st : ResolverState) (content : List Char) lines tail,
      splitTail (content.drop st.lastReadOffset) = (lines, tail) →
      tail ≠ [] →
      st.lastReadOffset ≤ content.length →
      ((updateSymbolNames st (some content)).lastReadOffset + tail.length =
        content.length ∧
       linesConsumed st (some content) = lines ∧
       linesConsumed (updateSymbolNames st (some content))
         (some (content ++ ['\n'])) = [tail] ∧
       (updateSymbolNames (updateSymbolNames st (some content))
         (some (content ++ ['\n']))).lastReadOffset = content.length + 1) := by
  intro st content lines tail hsplit hne hle
  have hlen : consumedBytes lines + tail.length =
      (content.drop st.lastReadOffset).length := by
    have := consumedBytes_add_tail_length (content.drop st.lastReadOffset)
    rw [hsplit] at this
    simpa using this
  have hdroplen : (content.drop st.lastReadOffset).length =
      content.length - st.lastReadOffset := List.length_drop _ _
  have h1 : (updateSymbolNames st (some content)).lastReadOffset +
      tail.length = content.length := by
    rw [update_some_lastReadOffset, hsplit]
    show st.lastReadOffset + consumedBytes lines + tail.length =
      content.length
    omega
  have hle1 : (updateSymbolNames st (some content)).lastReadOffset ≤
      content.length := by omega
  have hdrop1 : content.drop
      (updateSymbolNames st (some content)).lastReadOffset = tail := by
    rw [drop_update_some_offset, hsplit]
  have hnn : '\n' ∉ tail := by
    have := splitTail_tail_no_newline (content.drop st.lastReadOffset)
    rw [hsplit] at this
    exact this
  have hdrop2 : (content ++ ['\n']).drop
      (updateSymbolNames st (some content)).lastReadOffset =
      tail ++ ['\n'] := by
    rw [List.drop_append_of_le_length hle1, hdrop1]
  have hsplit2 : splitTail (tail ++ ['\n']) = ([tail], []) := by
    have := splitTail_append_newline tail [] hnn
    simpa [splitTail] using this
  refine ⟨h1, ?_, ?_, ?_⟩
  · simp [linesConsumed, hsplit]
  · simp [linesConsumed, hdrop2, hsplit2]
  · rw [update_some_lastReadOffset, hdrop2, hsplit2]
    simp [consumedBytes]
    omega

/-- Witness for C3: instantiates `partial_line_deferral` on the file
`"a a A\nb b B"` whose last line lacks its newline. -/
theorem partial_line_deferral_witness :
    ((updateSymbolNames initState
        (some "a a A\nb b B".data)).lastReadOffset +
      ("b b B".data).length = ("a a A\nb b B".data).length ∧
     linesConsumed initState (some "a a A\nb b B".data) = ["a a A".data] ∧
     linesConsumed (updateSymbolNames initState (some "a a A\nb b B".data))
       (some ("a a A\nb b B".data ++ ['\n'])) = ["b b B".data] ∧
     (updateSymbolNames
        (updateSymbolNames initState (some "a a A\nb b B".data))
        (some ("a a A\nb b B".data ++ ['\n']))).lastReadOffset =
       ("a a A\nb b B".data).length + 1) :=
  partial_line_deferral initState "a a A\nb b B".data ["a a A".data]
    "b b B".data (by decide) (by decide) (by decide)

/-! Claim C4. -/

/-- Claim C4 (confirmed): across any sequence of refreshes (no reset in
between) `lastReadOffset` is monotonically non-decreasing; and a refresh on a
file that has not grown since the previous refresh consumes zero new lines
and changes nothing at all — `updateSymbolNames` is idempotent on an
unchanged file (absent file included). -/
theorem offset_monotone_and_refresh_idempotent :
    (∀ (files : List (Option (List Char))) (st : ResolverState),
      st.lastReadOffset ≤ (files.foldl updateSymbolNames st).lastReadOffset) ∧
    (∀ (st : ResolverState) (file : Option (List Char)),
      linesConsumed (updateSymbolNames st file) file = []) ∧
    (∀ (st : ResolverState) (file : Option (List Char)),
      updateSymbolNames (updateSymbolNames st file) file =
        updateSymbolNames st file) := by
  have hcons : ∀ (st : ResolverState) (file : Option (List Char)),
      linesConsumed (updateSymbolNames st file) file = [] := by
    intro st file
    cases file with
    | none => rfl
    | some c =>
      have hnn := splitTail_tail_no_newline (c.drop st.lastReadOffset)
      rw [linesConsumed, drop_update_some_offset,
        splitTail_of_no_newline _ hnn]
  refine ⟨?_, hcons, ?_⟩
  · intro files
    induction files with
    | nil => intro st; exact le_refl _
    | cons f fs ih =>
      intro st
      exact le_trans (lastReadOffset_le_update st f) (ih _)
  · intro st file
    cases file with
    | none =>
      apply ResolverState.ext
      · rfl
      · rfl
      · rfl
      · rfl
      · rfl
      · rw [update_pathBuffer (updateSymbolNames st none) none,
          if_neg (update_pathBuffer_ne_empty st none)]
      · rfl
      · rfl
    | some c =>
      have hnn := splitTail_tail_no_newline (c.drop st.lastReadOffset)
      have hdrop : c.drop (updateSymbolNames st (some c)).lastReadOffset =
          (splitTail (c.drop st.lastReadOffset)).2 :=
        drop_update_some_offset st c
      have htail : splitTail ((splitTail (c.drop st.lastReadOffset)).2) =
          ([], (splitTail (c.drop st.lastReadOffset)).2) :=
        splitTail_of_no_newline _ hnn
      apply ResolverState.ext
      · rw [update_pid, update_pid]
      · rw [update_path, update_path]
      · rw [update_some_symbolNames (updateSymbolNames st (some c)) c,
          hdrop, htail]
        simp [sortByEnd_eq_self (update_some_sorted st c)]
      · rw [update_symbolNamesUpdated, update_symbolNamesUpdated]
      · rw [update_symbolNamesUpdateMinInterval,
          update_symbolNamesUpdateMinInterval]
      · rw [update_pathBuffer (updateSymbolNames st (some c)) (some c),
          if_neg (update_pathBuffer_ne_empty st (some c))]
      · rw [update_some_line (updateSymbolNames st (some c)) c, hdrop, htail,
          update_some_line st c]
      · rw [update_some_lastReadOffset (updateSymbolNames st (some c)) c,
          hdrop, htail]
        simp [consumedBytes]

/-! Claim C5. -/

/-- Claim C5 counterexample: the claim says a miss refreshes whenever the
elapsed time is `≥ minRefreshInterval`. With the last refresh at tick 0 and
the default interval 100, a miss at tick 100 has elapsed time exactly equal
to the interval, yet the code's strict comparison
`now - symbolNamesUpdated_ > symbolNamesUpdateMinInterval_` fails and no
refresh happens. -/
theorem refresh_gate_cex :
    ((100 : Int) - initState.symbolNamesUpdated ≥
      initState.symbolNamesUpdateMinInterval) ∧
    tryResolve initState.symbolNames 5 = none ∧
    (resolve initState none 5 false 100).didRefresh = false := by decide

/-- Claim C5 (amended): on a lookup miss `resolve` refreshes iff `forceUpdate`
is true or the elapsed time since the last recorded refresh is strictly
greater than `minRefreshInterval`; when it refreshes it records the new
timestamp and returns the retried lookup against the refreshed table; hence
for two misses with `forceUpdate = false` within `minRefreshInterval` of each
other, at most one filesystem refresh occurs between them. -/
theorem refresh_gate :
    (∀ st file a fu now,
      ((resolve st file a fu now).didRefresh = true ↔
        (tryResolve st.symbolNames a = none ∧
         (fu = true ∨
          now - st.symbolNamesUpdated > st.symbolNamesUpdateMinInterval))) ∧
      ((resolve st file a fu now).didRefresh = true →
        (resolve st file a fu now).state.symbolNamesUpdated = now ∧
        (resolve st file a fu now).symbolName =
          tryResolve (updateSymbolNames st file).symbolNames a)) ∧
    (∀ st file1 file2 a1 a2 t1 t2,
      t2 - t1 ≤ st.symbolNamesUpdateMinInterval →
      ¬((resolve st file1 a1 false t1).didRefresh = true ∧
        (resolve (resolve st file1 a1 false t1).state file2 a2 false
          t2).didRefresh = true)) := by
  constructor
  · intro st file a fu now
    rcases h : tryResolve st.symbolNames a with _ | s
    · by_cases hg : fu = true ∨
          now - st.symbolNamesUpdated > st.symbolNamesUpdateMinInterval
      · rw [resolve_of_miss_gate h hg]
        exact ⟨by simp [h, hg], fun _ => ⟨rfl, rfl⟩⟩
      · rw [resolve_of_miss_nogate h hg]
        exact ⟨by simp [hg], fun hc => by cases hc⟩
    · rw [resolve_of_hit h]
      exact ⟨by simp [h], fun hc => by cases hc⟩
  · intro st file1 file2 a1 a2 t1 t2 hint
    rintro ⟨hr1, hr2⟩
    rcases h1 : tryResolve st.symbolNames a1 with _ | s
    · by_cases hg1 : (false = true) ∨
          t1 - st.symbolNamesUpdated > st.symbolNamesUpdateMinInterval
      · rw [resolve_of_miss_gate h1 hg1] at hr2
        rcases h2 : tryResolve
            ({ updateSymbolNames st file1 with
                symbolNamesUpdated := t1 } : ResolverState).symbolNames a2
          with _ | s2
        · by_cases hg2 : (false = true) ∨
              t2 - ({ updateSymbolNames st file1 with
                  symbolNamesUpdated := t1 } :
                    ResolverState).symbolNamesUpdated >
                ({ updateSymbolNames st file1 with
                  symbolNamesUpdated := t1 } :
                    ResolverState).symbolNamesUpdateMinInterval
          · have hmin : ({ updateSymbolNames st file1 with
                symbolNamesUpdated := t1 } :
                  ResolverState).symbolNamesUpdateMinInterval =
                st.symbolNamesUpdateMinInterval := by
              show (updateSymbolNames st file1).symbolNamesUpdateMinInterval =
                st.symbolNamesUpdateMinInterval
              exact update_symbolNamesUpdateMinInterval st file1
            rcases hg2 with hc | hgt
            · cases hc
            · rw [hmin] at hgt
              have : ({ updateSymbolNames st file1 with
                  symbolNamesUpdated := t1 } :
                    ResolverState).symbolNamesUpdated = t1 := rfl
              rw [this] at hgt
              omega
          · rw [resolve_of_miss_nogate h2 hg2] at hr2
            cases hr2
        · rw [resolve_of_hit h2] at hr2
          cases hr2
      · rw [resolve_of_miss_nogate h1 hg1] at hr1
        cases hr1
    · rw [resolve_of_hit h1] at hr1
      cases hr1

/-- Witness for C5: instantiates `refresh_gate` at a miss at tick 200 from a
fresh state (elapsed 200 > 100, so the refresh runs and records 200), and at
a second miss 50 ticks later (within the interval, so no double refresh). -/
theorem refresh_gate_witness :
    (resolve initState none 5 false 200).didRefresh = true ∧
    (resolve initState none 5 false 200).state.symbolNamesUpdated = 200 ∧
    ¬((resolve initState none 5 false 200).didRefresh = true ∧
      (resolve (resolve initState none 5 false 200).state none 6 false
        250).didRefresh = true) := by
  have h1 := (refresh_gate.1 initState none 5 false 200).1.mpr
    ⟨by decide, Or.inr (by decide)⟩
  have h2 := (refresh_gate.1 initState none 5 false 200).2 h1
  have h3 := refresh_gate.2 initState none none 5 6 200 250 (by decide)
  exact ⟨h1, h2.1, h3⟩

/-! Claim C6. -/

/-- Claim C6 counterexample: the claim says every `resolve(address, true)`
call triggers a refresh attempt. When the first lookup hits — here address 15
against the table refreshed from `"a a A\n"` — `resolve` returns immediately
and no refresh attempt occurs even with `forceUpdate = true`. -/
theorem forceUpdate_cex :
    (resolve (updateSymbolNames initState (some "a a A\n".data)) none 15 true
      0).didRefresh = false ∧
    (resolve (updateSymbolNames initState (some "a a A\n".data)) none 15 true
      0).symbolName = some "A" := by decide

/-- Claim C6 (amended): on a lookup miss, `resolve(address, true)` triggers a
refresh attempt unconditionally, regardless of the elapsed time since the
last refresh. -/
theorem forceUpdate_refresh_on_miss :
    ∀ (st : ResolverState) (file : Option (List Char)) (a : Nat) (now : Int),
      tryResolve st.symbolNames a = none →
      (resolve st file a true now).didRefresh = true := by
  intro st file a now h
  rw [resolve_of_miss_gate h (Or.inl rfl)]

/-- Witness for C6: a miss on the empty table with `forceUpdate = true` at
tick 0 (elapsed time 0, far below the interval) still refreshes. -/
theorem forceUpdate_refresh_on_miss_witness :
    (resolve initState none 5 true 0).didRefresh = true :=
  forceUpdate_refresh_on_miss initState none 5 0 (by decide)

/-! Claim C7. -/

/-- Claim C7 (confirmed): all the embedded operations are total functions, so
no input can raise an error; when the map file is absent the refresh's early
return leaves the interval table (and the read offset and line scratch)
unchanged, and a resolver whose table is empty — as after `reset`, when the
file never existed — answers every `resolve` with the explicit not-found
`none` and keeps its table empty, so every later call misses too. -/
theorem absent_file_degraded :
    (∀ st : ResolverState,
      (updateSymbolNames st none).symbolNames = st.symbolNames ∧
      (updateSymbolNames st none).lastReadOffset = st.lastReadOffset ∧
      (updateSymbolNames st none).line = st.line) ∧
    (∀ (st : ResolverState) (a : Nat) (fu : Bool) (now : Int),
      st.symbolNames = [] →
      (resolve st none a fu now).symbolName = none ∧
      (resolve st none a fu now).state.symbolNames = []) := by
  refine ⟨fun st => ⟨rfl, rfl, rfl⟩, fun st a fu now h => ?_⟩
  have hmiss : tryResolve st.symbolNames a = none := by
    rw [h]
    rfl
  by_cases hg : fu = true ∨
      now - st.symbolNamesUpdated > st.symbolNamesUpdateMinInterval
  · rw [resolve_of_miss_gate hmiss hg]
    have hnames : (updateSymbolNames st none).symbolNames = [] := h
    exact ⟨by show tryResolve (updateSymbolNames st none).symbolNames a = none
              rw [hnames]
              rfl,
           hnames⟩
  · rw [resolve_of_miss_nogate hmiss hg]
    exact ⟨rfl, h⟩

/-- Witness for C7: a fresh (reset) resolver with the map file absent returns
not-found and stays empty. -/
theorem absent_file_degraded_witness :
    (resolve initState none 7 false 1000).symbolName = none ∧
    (resolve initState none 7 false 1000).state.symbolNames = [] :=
  absent_file_degraded.2 initState 7 false 1000 (by decide)

/-! Claim C8. -/

/-- Claim C8 counterexample: the claim says every stored interval with
non-zero parsed size satisfies `start < end`. The line
`"ffffffffffffffff 2 X"` parses to `start = 2^64 - 1` and size 2; the
`std::size_t` addition `startAddress + symbolSize` wraps to 1, so the stored
interval has `end = 1 < start`. -/
theorem interval_invariant_cex :
    (updateSymbolNames initState
      (some "ffffffffffffffff 2 X\n".data)).symbolNames =
      [⟨"X", 18446744073709551615, 1⟩] ∧
    ¬((18446744073709551615 : Nat) < 1) := by decide

/-- Claim C8 (amended): every stored interval has a non-zero start and came
from a non-zero parsed size, with `end = (start + size) mod 2^64`, so
`start < end` holds whenever `start + size` does not wrap 64 bits; after
every refresh the whole table is sorted ascending by `end` (not necessarily
by `start`); duplicate and overlapping intervals are permitted and never
merged — the refreshed table is a permutation of the old table plus the
parses of the newly consumed lines. -/
theorem interval_invariant :
    (∀ (l : List Char) (s : SymbolNameWithOffset), lineToSymbol l = some s →
      s.fileOffsetStart ≠ 0 ∧ symbolSizeOf l ≠ 0 ∧
      s.fileOffsetEnd = (s.fileOffsetStart + symbolSizeOf l) % (2 ^ 64) ∧
      (s.fileOffsetStart + symbolSizeOf l < 2 ^ 64 →
        s.fileOffsetStart < s.fileOffsetEnd)) ∧
    (∀ (st : ResolverState) (content : List Char),
      SortedByEnd (updateSymbolNames st (some content)).symbolNames) ∧
    (∀ (st : ResolverState) (content : List Char),
      ((updateSymbolNames st (some content)).symbolNames).Perm
        (st.symbolNames ++
          (linesConsumed st (some content)).filterMap lineToSymbol)) := by
  refine ⟨fun l s h => ?_, fun st content => update_some_sorted st content,
    fun st content => ?_⟩
  · rw [lineToSymbol] at h
    split at h
    · rename_i hc
      cases h
      refine ⟨hc.1, hc.2.1, rfl, fun hlt => ?_⟩
      show startAddressOf l < (startAddressOf l + symbolSizeOf l) % (2 ^ 64)
      rw [Nat.mod_eq_of_lt hlt]
      exact Nat.lt_add_of_pos_right (Nat.pos_of_ne_zero hc.2.1)
    · cases h
  · rw [update_some_symbolNames, linesConsumed]
    exact sortByEnd_perm _

/-- Witness for C8: the kept line `"a a A"` yields the well-formed interval
`[10, 20)`, and the table refreshed from `"14 a B\na a A\n"` (lines out of
order) is end-sorted. -/
theorem interval_invariant_witness :
    (10 : Nat) < 20 ∧
    SortedByEnd
      (updateSymbolNames initState (some "14 a B\na a A\n".data)).symbolNames := by
  refine ⟨?_, interval_invariant.2.1 initState "14 a B\na a A\n".data⟩
  have h := interval_invariant.1 "a a A".data ⟨"A", 10, 20⟩ (by decide)
  exact h.2.2.2 (by decide)

/-! Claim C9. -/

/-- Claim C9 (confirmed): `freeResources` clears the interval table, unlinks
the map file iff the path buffer was ever built (is non-empty), and touches
no other field: `pid`, `path`, the refresh timestamp, the interval, the path
buffer, the line scratch and in particular `lastReadOffset` are unchanged;
`lastReadOffset` is set back to its initial value 0 only by `reset`, the
refresh (and hence `resolve`) never decreasing it. -/
theorem freeResources_frame :
    ∀ (st : ResolverState) (pid : Int) (path : String),
      (freeResources st).1.symbolNames = [] ∧
      (freeResources st).1.pid = st.pid ∧
      (freeResources st).1.path = st.path ∧
      (freeResources st).1.symbolNamesUpdated = st.symbolNamesUpdated ∧
      (freeResources st).1.symbolNamesUpdateMinInterval =
        st.symbolNamesUpdateMinInterval ∧
      (freeResources st).1.symbolNamesPathBuffer =
        st.symbolNamesPathBuffer ∧
      (freeResources st).1.line = st.line ∧
      (freeResources st).1.lastReadOffset = st.lastReadOffset ∧
      ((freeResources st).2 = some st.symbolNamesPathBuffer ↔
        st.symbolNamesPathBuffer ≠ "") ∧
      (reset st pid path).lastReadOffset = 0 ∧
      (∀ file, st.lastReadOffset ≤
        (updateSymbolNames st file).lastReadOffset) ∧
      (∀ file a fu now, st.lastReadOffset ≤
        (resolve st file a fu now).state.lastReadOffset) := by
  intro st pid path
  refine ⟨rfl, rfl, rfl, rfl, rfl, rfl, rfl, rfl, ?_, rfl,
    fun file => lastReadOffset_le_update st file, fun file a fu now => ?_⟩
  · by_cases h : st.symbolNamesPathBuffer = "" <;> simp [freeResources, h]
  · rcases h : tryResolve st.symbolNames a with _ | s
    · by_cases hg : fu = true ∨
          now - st.symbolNamesUpdated > st.symbolNamesUpdateMinInterval
      · rw [resolve_of_miss_gate h hg]
        exact lastReadOffset_le_update st file
      · rw [resolve_of_miss_nogate h hg]
    · rw [resolve_of_hit h]

/-! Claim C10. -/

/-- Claim C10 (confirmed): whenever a miss passes the refresh gate, the
last-refresh timestamp is set to the time sampled before the refresh — even
when the file is absent (`file = none`) or no new complete lines were
available — so any subsequent miss with `forceUpdate = false` within
`minRefreshInterval` of that fruitless attempt does not invoke the refresh
and touches the filesystem not at all. -/
theorem fruitless_refresh_throttle :
    ∀ (st : ResolverState) (file : Option (List Char)) (a : Nat) (fu : Bool)
      (t1 : Int),
      (resolve st file a fu t1).didRefresh = true →
      ((resolve st file a fu t1).state.symbolNamesUpdated = t1 ∧
       ∀ (file2 : Option (List Char)) (a2 : Nat) (t2 : Int),
         t2 - t1 ≤ st.symbolNamesUpdateMinInterval →
         (resolve (resolve st file a fu t1).state file2 a2 false
           t2).didRefresh = false) := by
  intro st file a fu t1 hr
  rcases h : tryResolve st.symbolNames a with _ | s
  · by_cases hg : fu = true ∨
        t1 - st.symbolNamesUpdated > st.symbolNamesUpdateMinInterval
    · rw [resolve_of_miss_gate h hg]
      refine ⟨rfl, fun file2 a2 t2 ht => ?_⟩
      rcases h2 : tryResolve
          ({ updateSymbolNames st file with symbolNamesUpdated := t1 } :
            ResolverState).symbolNames a2 with _ | s2
      · have hg2 : ¬((false = true) ∨
            t2 - ({ updateSymbolNames st file with
                symbolNamesUpdated := t1 } :
                  ResolverState).symbolNamesUpdated >
              ({ updateSymbolNames st file with
                symbolNamesUpdated := t1 } :
                  ResolverState).symbolNamesUpdateMinInterval) := by
          rintro (hc | hgt)
          · cases hc
          · have hup : ({ updateSymbolNames st file with
                symbolNamesUpdated := t1 } :
                  ResolverState).symbolNamesUpdated = t1 := rfl
            have hmin : ({ updateSymbolNames st file with
                symbolNamesUpdated := t1 } :
                  ResolverState).symbolNamesUpdateMinInterval =
                st.symbolNamesUpdateMinInterval :=
              update_symbolNamesUpdateMinInterval st file
            rw [hup, hmin] at hgt
            omega
        rw [resolve_of_miss_nogate h2 hg2]
      · rw [resolve_of_hit h2]
    · rw [resolve_of_miss_nogate h hg] at hr
      cases hr
  · rw [resolve_of_hit h] at hr
    cases hr

/-- Witness for C10: a fruitless refresh (file absent, nothing parsed) at
tick 200 still records the timestamp 200, and a second miss at tick 250 —
within the 100-tick interval — does not refresh. -/
theorem fruitless_refresh_throttle_witness :
    (resolve initState none 5 false 200).state.symbolNamesUpdated = 200 ∧
    (resolve (resolve initState none 5 false 200).state none 5 false
      250).didRefresh = false := by
  have h := fruitless_refresh_throttle initState none 5 false 200 (by decide)
  exact ⟨h.1, h.2 none 5 250 (by decide)⟩

end LiveProfiler
